import Mathlib

/-!
Shallow embedding of the file-upload widget in `src/src/App.tsx`.

Filenames and ids are modelled as Lean `String`s / `List Char`; the
JavaScript operations used by the source (`String.prototype.split('.')`,
`pop()`, `toLowerCase()`, `toUpperCase()`, `Math.random().toString(36)`
fraction digits) are embedded as executable functions on `List Char`.
The React state updates (`setFiles` with functional updaters) are embedded
as pure functions on the queue `List FileEntry`, and the event-loop level
behaviour of the component as a small-step transition relation `Step`.
-/

/-- ASCII lowercasing of one character, as JS `toLowerCase` acts on A-Z. -/
def toLowerChar (c : Char) : Char :=
  if 'A' ≤ c ∧ c ≤ 'Z' then Char.ofNat (c.toNat + 32) else c

/-- ASCII uppercasing of one character, as JS `toUpperCase` acts on a-z. -/
def toUpperChar (c : Char) : Char :=
  if 'a' ≤ c ∧ c ≤ 'z' then Char.ofNat (c.toNat - 32) else c

/-- The digits that can appear in the fraction part of
`Math.random().toString(36)`. -/
def base36Digits : List Char := "0123456789abcdefghijklmnopqrstuvwxyz".toList

/-- A lowercase-alphanumeric character (digit or lowercase letter). -/
def isLowerAlnum (c : Char) : Prop :=
  ('0' ≤ c ∧ c ≤ '9') ∨ ('a' ≤ c ∧ c ≤ 'z')

instance (c : Char) : Decidable (isLowerAlnum c) := by
  unfold isLowerAlnum; infer_instance

/-- An uppercase-alphanumeric character (digit or uppercase letter). -/
def isUpperAlnum (c : Char) : Prop :=
  ('0' ≤ c ∧ c ≤ '9') ∨ ('A' ≤ c ∧ c ≤ 'Z')

instance (c : Char) : Decidable (isUpperAlnum c) := by
  unfold isUpperAlnum; infer_instance

/-- Accumulator-passing core of JS `String.prototype.split('.')`:
splits at every `'.'`, preserving empty segments.  The accumulator holds
the characters of the current segment in reverse. -/
def jsSplitAux : List Char → List Char → List (List Char)
  | [], acc => [acc.reverse]
  | c :: rest, acc =>
    if c = '.' then acc.reverse :: jsSplitAux rest []
    else jsSplitAux rest (c :: acc)

/-- JS `name.split('.')`. -/
def jsSplitDot (s : List Char) : List (List Char) := jsSplitAux s []

/-- JS `name.split('.').pop()`: the last segment produced by the split
(the split list is never empty, so `pop` never yields `undefined`). -/
def jsLastSeg (s : List Char) : List Char := (jsSplitAux s []).getLastD []

/-- The suffix of `s` after the last `'.'`; the whole of `s` when `s`
contains no `'.'`. -/
def afterLastDot (s : List Char) : List Char :=
  ((s.reverse.takeWhile fun c => c != '.').reverse)

theorem jsSplitAux_ne_nil (s acc : List Char) : jsSplitAux s acc ≠ [] := by
  induction s generalizing acc with
  | nil => simp [jsSplitAux]
  | cons c rest ih =>
    by_cases h : c = '.'
    · simp [jsSplitAux, h]
    · simpa [jsSplitAux, h] using ih (c :: acc)

theorem takeWhile_append_of_exists_false {p : Char → Bool} (l l' : List Char)
    (h : ∃ x ∈ l, p x = false) :
    (l ++ l').takeWhile p = l.takeWhile p := by
  induction l with
  | nil => obtain ⟨x, hx, _⟩ := h; cases hx
  | cons a l ih =>
    by_cases ha : p a
    · obtain ⟨x, hx, hpx⟩ := h
      rcases List.mem_cons.mp hx with rfl | hx
      · rw [ha] at hpx; cases hpx
      · simp only [List.cons_append, List.takeWhile_cons, ha]
        rw [ih ⟨x, hx, hpx⟩]
    · simp only [List.cons_append, List.takeWhile_cons]
      rw [Bool.not_eq_true] at ha
      simp [ha]

theorem takeWhile_append_of_all_true {p : Char → Bool} (l l' : List Char)
    (h : ∀ x ∈ l, p x = true) :
    (l ++ l').takeWhile p = l ++ l'.takeWhile p := by
  induction l with
  | nil => simp
  | cons a l ih =>
    have ha : p a = true := h a (List.mem_cons_self a l)
    simp only [List.cons_append, List.takeWhile_cons, ha]
    simp [ih fun x hx => h x (List.mem_cons_of_mem a hx)]

theorem afterLastDot_cons_of_mem (c : Char) (rest : List Char) (h : '.' ∈ rest) :
    afterLastDot (c :: rest) = afterLastDot rest := by
  unfold afterLastDot
  have : (c :: rest).reverse = rest.reverse ++ [c] := by simp
  rw [this, takeWhile_append_of_exists_false]
  exact ⟨'.', by simpa using h, by simp⟩

theorem afterLastDot_of_not_mem (s : List Char) (h : '.' ∉ s) :
    afterLastDot s = s := by
  unfold afterLastDot
  rw [List.takeWhile_eq_self_iff.mpr, List.reverse_reverse]
  intro a ha
  have : a ∈ s := by simpa using ha
  simp only [bne_iff_ne, ne_eq]
  rintro rfl; exact h this

theorem afterLastDot_dot_cons (rest : List Char) (h : '.' ∉ rest) :
    afterLastDot ('.' :: rest) = rest := by
  unfold afterLastDot
  have h1 : ('.' :: rest).reverse = rest.reverse ++ ['.'] := by simp
  rw [h1, takeWhile_append_of_all_true]
  · simp
  · intro x hx
    have : x ∈ rest := by simpa using hx
    simp only [bne_iff_ne, ne_eq]
    rintro rfl; exact h this

theorem afterLastDot_cons_of_ne (c : Char) (rest : List Char) (hc : c ≠ '.')
    (h : '.' ∉ rest) : afterLastDot (c :: rest) = c :: rest := by
  refine afterLastDot_of_not_mem _ ?_
  intro hm
  rcases List.mem_cons.mp hm with h1 | h1
  · exact hc h1.symm
  · exact h h1

theorem jsSplitAux_getLast (s acc : List Char) :
    (jsSplitAux s acc).getLastD [] =
      if '.' ∈ s then afterLastDot s else acc.reverse ++ s := by
  induction s generalizing acc with
  | nil => simp [jsSplitAux]
  | cons c rest ih =>
    by_cases hc : c = '.'
    · subst hc
      have hne := jsSplitAux_ne_nil rest []
      rw [jsSplitAux]
      simp only [if_pos rfl, if_true]
      rw [List.getLastD_cons]
      cases hrec : jsSplitAux rest [] with
      | nil => exact absurd hrec hne
      | cons x xs =>
        have hd : List.getLastD (x :: xs) acc.reverse = List.getLastD (x :: xs) [] := by
          rw [List.getLastD_cons, List.getLastD_cons]
        have hih := ih []
        rw [hrec] at hih
        simp only [List.reverse_nil, List.nil_append] at hih
        rw [hd, hih]
        by_cases hm : '.' ∈ rest
        · rw [if_pos hm, if_pos (List.mem_cons.mpr (Or.inr hm)),
            afterLastDot_cons_of_mem _ _ hm]
        · rw [if_neg hm, if_pos (List.mem_cons.mpr (Or.inl rfl)),
            afterLastDot_dot_cons rest hm]
    · rw [jsSplitAux]
      simp only [if_neg hc]
      rw [ih (c :: acc)]
      have hmem : ('.' ∈ c :: rest) ↔ ('.' ∈ rest) := by
        simp only [List.mem_cons]
        constructor
        · rintro (h1 | h1)
          · exact absurd h1.symm hc
          · exact h1
        · exact Or.inr
      by_cases hm : '.' ∈ rest
      · rw [if_pos hm, if_pos (hmem.mpr hm), afterLastDot_cons_of_mem _ _ hm]
      · rw [if_neg hm, if_neg (fun h => hm (hmem.mp h))]
        simp

/-- `jsLastSeg` always computes the suffix after the last dot (the whole
name when there is no dot). -/
theorem jsLastSeg_eq_afterLastDot (s : List Char) :
    jsLastSeg s = afterLastDot s := by
  unfold jsLastSeg
  rw [jsSplitAux_getLast]
  by_cases hm : '.' ∈ s
  · rw [if_pos hm]
  · rw [if_neg hm, afterLastDot_of_not_mem s hm]; simp

/-- A raw file handle: the metadata the component reads from a JS `File`
(`name`, `type`, `size`). -/
structure RawFile where
  name : String
  ftype : String
  size : Nat
deriving DecidableEq, Repr

/-- `allowedTypes` from `App.tsx`. -/
def allowedTypes : List String :=
  ["text/plain", "application/pdf", "text/csv", "application/vnd.ms-excel"]

/-- `allowedExtensions` from `App.tsx`, as character lists. -/
def allowedExtensions : List (List Char) :=
  [".txt".toList, ".pdf".toList, ".csv".toList]

/-- The `extension` computed by `validateFile` in `App.tsx`:
`'.' + file.name.split('.').pop()?.toLowerCase()`. -/
def jsExtension (name : String) : List Char :=
  '.' :: (jsLastSeg name.toList).map toLowerChar

/-- `validateFile` from `App.tsx`. -/
def validateFile (f : RawFile) : Bool :=
  decide (f.ftype ∈ allowedTypes) || decide (jsExtension f.name ∈ allowedExtensions)

/-- Upload status of one queue entry (`UploadedFile.status`). -/
inductive Status where
  | pending
  | uploading
  | success
  | error
deriving DecidableEq, Repr

/-- One queue entry (`UploadedFile` in `App.tsx`); the optional `error`
field holds the error message. -/
structure FileEntry where
  file : RawFile
  id : String
  status : Status
  progress : Nat
  error : Option String
deriving DecidableEq, Repr

/-- The entry created by `handleFiles` for an accepted file:
`{ file, id, status: 'pending', progress: 0 }` (no `error` field). -/
def mkPending (f : RawFile) (i : String) : FileEntry :=
  { file := f, id := i, status := .pending, progress := 0, error := none }

/-- The `setFiles` updater run at the start of `uploadFile`:
`{ ...f, status: 'uploading', progress: 0 }` for the matching id.
The spread keeps the existing `error` field. -/
def setUploading (i : String) (q : List FileEntry) : List FileEntry :=
  q.map fun f => if f.id = i then { f with status := .uploading, progress := 0 } else f

/-- The `setFiles` updater run after a 2xx response:
`{ ...f, status: 'success', progress: 100 }` for the matching id.
The spread keeps the existing `error` field. -/
def setSuccess (i : String) (q : List FileEntry) : List FileEntry :=
  q.map fun f => if f.id = i then { f with status := .success, progress := 100 } else f

/-- The `setFiles` updater run in the catch block:
`{ ...f, status: 'error', progress: 0, error: msg }` for the matching id. -/
def setError (i : String) (msg : String) (q : List FileEntry) : List FileEntry :=
  q.map fun f =>
    if f.id = i then { f with status := .error, progress := 0, error := some msg } else f

/-- `removeFile` from `App.tsx`: `prev.filter(f => f.id !== id)`. -/
def removeFile (i : String) (q : List FileEntry) : List FileEntry :=
  q.filter fun f => f.id != i

/-- The `newFiles` array built by `handleFiles`: one `pending` entry per
file that passes `validateFile`, in input order.  The PRNG outcome for
the ids is modelled by the stream `ids`; entry number `k` of the batch
consumes `ids k`. -/
def intakeList : List RawFile → (Nat → String) → Nat → List FileEntry
  | [], _, _ => []
  | f :: rest, ids, k =>
    if validateFile f then mkPending f (ids k) :: intakeList rest ids (k + 1)
    else intakeList rest ids k

/-- `handleFiles` from `App.tsx` restricted to its queue effect:
`setFiles(prev => [...prev, ...newFiles])`. -/
def handleFiles (fl : List RawFile) (ids : Nat → String) (q : List FileEntry) :
    List FileEntry :=
  q ++ intakeList fl ids 0

/-- The `userId` form field built in `uploadFile`:
`'USR' + Math.random().toString(36).substr(2, 9).toUpperCase()`.
`rnd` is the list of base-36 fraction digits of the PRNG output. -/
def mkUserId (rnd : List Char) : List Char :=
  "USR".toList ++ (rnd.take 9).map toUpperChar

/-- The multipart payload assembled by `uploadFile` (`FormData` fields). -/
structure FormDataModel where
  data : RawFile
  filename : String
  filesize : String
  filetype : String
  userId : List Char
deriving DecidableEq, Repr

/-- Construction of the payload in `uploadFile`: the file itself, its
name, its size rendered as a decimal string, its declared type, and a
fresh `userId` built from this call's PRNG digits `rnd`. -/
def buildFormData (e : FileEntry) (rnd : List Char) : FormDataModel :=
  { data := e.file
    filename := e.file.name
    filesize := Nat.repr e.file.size
    filetype := e.file.ftype
    userId := mkUserId rnd }

/-- `Response.ok` of the fetch API: status in 200..299. -/
def httpOk (st : Nat) : Bool := decide (200 ≤ st) && decide (st ≤ 299)

/-- A value thrown in JS: an `Error` object carrying a message, or any
other value. -/
inductive JsThrown where
  | errObj (msg : String)
  | nonError
deriving DecidableEq, Repr

/-- `error instanceof Error ? error.message : 'Upload failed'`. -/
def jsErrorMessage : JsThrown → String
  | .errObj m => m
  | .nonError => "Upload failed"

/-- The message of the `Error` thrown on a non-ok response:
a template embedding `response.status` and `response.statusText`. -/
def uploadFailedMsg (st : Nat) (statusText : String) : String :=
  "Upload failed: " ++ Nat.repr st ++ " " ++ statusText

/-- Outcome of the `fetch` call: a settled response (status, status
text, body) or a rejection with a thrown value. -/
inductive FetchOutcome where
  | response (st : Nat) (statusText : String) (body : String)
  | failure (e : JsThrown)
deriving DecidableEq, Repr

/-- A queue mutation performed by one run of `uploadFile`. -/
inductive DriverEvent where
  | setUploading
  | setSuccess
  | setError (msg : String)
deriving DecidableEq, Repr

/-- The sequence of `setFiles` mutations performed by a single run of
`uploadFile`, as a function of the fetch outcome: first the transition
to `uploading`, then exactly one terminal mutation.  A non-ok response
throws `Error(uploadFailedMsg ...)` inside the `try`, which the catch
block turns into the `error` transition with that message. -/
def driverEvents (r : FetchOutcome) : List DriverEvent :=
  [DriverEvent.setUploading] ++
    match r with
    | .response st statusText _ =>
      if httpOk st then [DriverEvent.setSuccess]
      else [DriverEvent.setError (uploadFailedMsg st statusText)]
    | .failure e => [DriverEvent.setError (jsErrorMessage e)]

/-- `files.filter(f => f.status === 'success').length`. -/
def summarySucceeded (q : List FileEntry) : Nat :=
  (q.filter fun f => decide (f.status = Status.success)).length

/-- `files.length`. -/
def summaryTotal (q : List FileEntry) : Nat := q.length

/-- The "Complete" percentage of the summary panel:
`Math.round(succeeded / total * 100)`.  The panel (and hence the
division) is rendered only under the `files.length > 0` guard, so the
value is `none` for an empty queue. -/
def summaryPercent (q : List FileEntry) : Option ℤ :=
  if q.length = 0 then none
  else some (round ((summarySucceeded q : ℚ) / (summaryTotal q : ℚ) * 100))

/-- Observable component state: the queue (the `files` React state) plus
the multiset of ids whose `fetch` has been issued and not yet settled. -/
structure Sys where
  queue : List FileEntry
  inflight : List String
deriving DecidableEq, Repr

/-- The initial component state: empty queue, nothing in flight. -/
def initSys : Sys := { queue := [], inflight := [] }

/-- Atomic steps of the component at `setFiles`-updater granularity.

* `intake`: the `setFiles(prev => [...prev, ...newFiles])` of
  `handleFiles`; the guard records that the ids drawn from the PRNG for
  this batch are pairwise distinct and globally fresh.
* `beginUpload`: the synchronous prefix of `uploadFile` up to the
  `fetch` call; it is entered from `handleFiles` (entry `pending`) or
  from the Retry button (entry `error`, the button is rendered only in
  that state), and unconditionally sets the entry to `uploading`.
* `uploadSuccess` / `uploadError`: the settling of an in-flight request
  and the corresponding terminal `setFiles` updater; the entry may have
  been removed meanwhile, in which case the map is a no-op.
* `removeEntry`: `removeFile`. -/
inductive Step : Sys → Sys → Prop where
  | intake (s : Sys) (fl : List RawFile) (ids : Nat → String)
      (hnodup : ((intakeList fl ids 0).map FileEntry.id).Nodup)
      (hfresh : ∀ i ∈ (intakeList fl ids 0).map FileEntry.id,
        i ∉ s.queue.map FileEntry.id ∧ i ∉ s.inflight) :
      Step s { queue := handleFiles fl ids s.queue, inflight := s.inflight }
  | beginUpload (s : Sys) (e : FileEntry) (he : e ∈ s.queue)
      (hst : e.status = Status.pending ∨ e.status = Status.error) :
      Step s { queue := setUploading e.id s.queue, inflight := e.id :: s.inflight }
  | uploadSuccess (s : Sys) (i : String) (h : i ∈ s.inflight) :
      Step s { queue := setSuccess i s.queue, inflight := s.inflight.erase i }
  | uploadError (s : Sys) (i : String) (msg : String) (h : i ∈ s.inflight) :
      Step s { queue := setError i msg s.queue, inflight := s.inflight.erase i }
  | removeEntry (s : Sys) (i : String) :
      Step s { queue := removeFile i s.queue, inflight := s.inflight }

/-- A state reachable from the initial state by component steps. -/
def Reachable (s : Sys) : Prop := Relation.ReflTransGen Step initSys s

/-- Combined state invariant: queue ids are distinct, in-flight ids are
distinct, an entry is `uploading` exactly when its id is in flight,
`progress` is `100` for `success` entries and `0` otherwise, and
`error` entries carry a message. -/
def SysInv (s : Sys) : Prop :=
  (s.queue.map FileEntry.id).Nodup ∧
  s.inflight.Nodup ∧
  (∀ e ∈ s.queue, e.status = Status.uploading → e.id ∈ s.inflight) ∧
  (∀ e ∈ s.queue, e.id ∈ s.inflight → e.status = Status.uploading) ∧
  (∀ e ∈ s.queue, e.progress = if e.status = Status.success then 100 else 0) ∧
  (∀ e ∈ s.queue, e.status = Status.error → e.error ≠ none)

instance (s : Sys) : Decidable (SysInv s) := by
  unfold SysInv; infer_instance

theorem intakeList_fields (fl : List RawFile) (ids : Nat → String) (k : Nat) :
    ∀ e ∈ intakeList fl ids k,
      e.status = Status.pending ∧ e.progress = 0 ∧ e.error = none := by
  induction fl generalizing k with
  | nil => intro e he; cases he
  | cons f rest ih =>
    intro e he
    rw [intakeList] at he
    by_cases hv : validateFile f
    · rw [if_pos hv] at he
      rcases List.mem_cons.mp he with rfl | he
      · exact ⟨rfl, rfl, rfl⟩
      · exact ih (k + 1) e he
    · rw [if_neg hv] at he
      exact ih k e he

theorem map_id_update (g : FileEntry → FileEntry) (hg : ∀ e, (g e).id = e.id)
    (i : String) (q : List FileEntry) :
    (q.map fun f => if f.id = i then g f else f).map FileEntry.id =
      q.map FileEntry.id := by
  induction q with
  | nil => rfl
  | cons a q ih =>
    simp only [List.map_cons]
    rw [ih]
    by_cases h : a.id = i <;> simp [h, hg]

theorem map_id_setUploading (i : String) (q : List FileEntry) :
    (setUploading i q).map FileEntry.id = q.map FileEntry.id :=
  map_id_update (fun f => { f with status := Status.uploading, progress := 0 })
    (fun _ => rfl) i q

theorem map_id_setSuccess (i : String) (q : List FileEntry) :
    (setSuccess i q).map FileEntry.id = q.map FileEntry.id :=
  map_id_update (fun f => { f with status := Status.success, progress := 100 })
    (fun _ => rfl) i q

theorem map_id_setError (i : String) (msg : String) (q : List FileEntry) :
    (setError i msg q).map FileEntry.id = q.map FileEntry.id :=
  map_id_update
    (fun f => { f with status := Status.error, progress := 0, error := some msg })
    (fun _ => rfl) i q

theorem mem_update_shape {g : FileEntry → FileEntry} {i : String}
    {q : List FileEntry} {e' : FileEntry}
    (h : e' ∈ q.map fun f => if f.id = i then g f else f) :
    ∃ e ∈ q, e' = if e.id = i then g e else e := by
  obtain ⟨e, he, rfl⟩ := List.mem_map.mp h
  exact ⟨e, he, rfl⟩

theorem sysInv_step {s s' : Sys} (hinv : SysInv s) (hst : Step s s') : SysInv s' := by
  obtain ⟨h1, h2, h3, h4, h5, h6⟩ := hinv
  cases hst with
  | intake fl ids hnodup hfresh =>
    refine ⟨?_, h2, ?_, ?_, ?_, ?_⟩
    · show ((handleFiles fl ids s.queue).map FileEntry.id).Nodup
      unfold handleFiles
      rw [List.map_append]
      exact h1.append hnodup fun a ha hb => (hfresh a hb).1 ha
    · intro e he hup
      rcases List.mem_append.mp he with hq | hn
      · exact h3 e hq hup
      · have hf := (intakeList_fields fl ids 0 e hn).1
        rw [hf] at hup
        exact Status.noConfusion hup
    · intro e he hmem
      rcases List.mem_append.mp he with hq | hn
      · exact h4 e hq hmem
      · exact absurd hmem (hfresh e.id (List.mem_map_of_mem FileEntry.id hn)).2
    · intro e he
      rcases List.mem_append.mp he with hq | hn
      · exact h5 e hq
      · obtain ⟨hp, hpr, _⟩ := intakeList_fields fl ids 0 e hn
        rw [hp, hpr]
        simp
    · intro e he herr
      rcases List.mem_append.mp he with hq | hn
      · exact h6 e hq herr
      · have hf := (intakeList_fields fl ids 0 e hn).1
        rw [hf] at herr
        exact Status.noConfusion herr
  | beginUpload e he hest =>
    have hni : e.id ∉ s.inflight := by
      intro hmem
      have hup := h4 e he hmem
      rcases hest with h | h <;> rw [h] at hup <;> exact Status.noConfusion hup
    refine ⟨?_, List.nodup_cons.mpr ⟨hni, h2⟩, ?_, ?_, ?_, ?_⟩
    · show ((setUploading e.id s.queue).map FileEntry.id).Nodup
      rw [map_id_setUploading]
      exact h1
    · intro e' he' hup
      obtain ⟨a, ha, rfl⟩ := mem_update_shape he'
      by_cases hid : a.id = e.id
      · rw [if_pos hid]
        simp [hid]
      · rw [if_neg hid] at hup ⊢
        exact List.mem_cons_of_mem _ (h3 a ha hup)
    · intro e' he' hmem
      obtain ⟨a, ha, rfl⟩ := mem_update_shape he'
      by_cases hid : a.id = e.id
      · rw [if_pos hid]
      · rw [if_neg hid] at hmem ⊢
        rcases List.mem_cons.mp hmem with hEq | hmem'
        · exact absurd hEq hid
        · exact h4 a ha hmem'
    · intro e' he'
      obtain ⟨a, ha, rfl⟩ := mem_update_shape he'
      by_cases hid : a.id = e.id
      · rw [if_pos hid]
        simp
      · rw [if_neg hid]
        exact h5 a ha
    · intro e' he' herr
      obtain ⟨a, ha, rfl⟩ := mem_update_shape he'
      by_cases hid : a.id = e.id
      · rw [if_pos hid] at herr
        exact Status.noConfusion herr
      · rw [if_neg hid] at herr ⊢
        exact h6 a ha herr
  | uploadSuccess i h =>
    refine ⟨?_, h2.erase i, ?_, ?_, ?_, ?_⟩
    · show ((setSuccess i s.queue).map FileEntry.id).Nodup
      rw [map_id_setSuccess]
      exact h1
    · intro e' he' hup
      obtain ⟨a, ha, rfl⟩ := mem_update_shape he'
      by_cases hid : a.id = i
      · rw [if_pos hid] at hup
        exact Status.noConfusion hup
      · rw [if_neg hid] at hup ⊢
        exact h2.mem_erase_iff.mpr ⟨hid, h3 a ha hup⟩
    · intro e' he' hmem
      obtain ⟨a, ha, rfl⟩ := mem_update_shape he'
      by_cases hid : a.id = i
      · rw [if_pos hid] at hmem
        obtain ⟨hne, _⟩ := h2.mem_erase_iff.mp hmem
        exact absurd hid hne
      · rw [if_neg hid] at hmem ⊢
        exact h4 a ha (h2.mem_erase_iff.mp hmem).2
    · intro e' he'
      obtain ⟨a, ha, rfl⟩ := mem_update_shape he'
      by_cases hid : a.id = i
      · rw [if_pos hid]
        simp
      · rw [if_neg hid]
        exact h5 a ha
    · intro e' he' herr
      obtain ⟨a, ha, rfl⟩ := mem_update_shape he'
      by_cases hid : a.id = i
      · rw [if_pos hid] at herr
        exact Status.noConfusion herr
      · rw [if_neg hid] at herr ⊢
        exact h6 a ha herr
  | uploadError i msg h =>
    refine ⟨?_, h2.erase i, ?_, ?_, ?_, ?_⟩
    · show ((setError i msg s.queue).map FileEntry.id).Nodup
      rw [map_id_setError]
      exact h1
    · intro e' he' hup
      obtain ⟨a, ha, rfl⟩ := mem_update_shape he'
      by_cases hid : a.id = i
      · rw [if_pos hid] at hup
        exact Status.noConfusion hup
      · rw [if_neg hid] at hup ⊢
        exact h2.mem_erase_iff.mpr ⟨hid, h3 a ha hup⟩
    · intro e' he' hmem
      obtain ⟨a, ha, rfl⟩ := mem_update_shape he'
      by_cases hid : a.id = i
      · rw [if_pos hid] at hmem
        obtain ⟨hne, _⟩ := h2.mem_erase_iff.mp hmem
        exact absurd hid hne
      · rw [if_neg hid] at hmem ⊢
        exact h4 a ha (h2.mem_erase_iff.mp hmem).2
    · intro e' he'
      obtain ⟨a, ha, rfl⟩ := mem_update_shape he'
      by_cases hid : a.id = i
      · rw [if_pos hid]
        simp
      · rw [if_neg hid]
        exact h5 a ha
    · intro e' he' herr
      obtain ⟨a, ha, rfl⟩ := mem_update_shape he'
      by_cases hid : a.id = i
      · rw [if_pos hid]
        simp
      · rw [if_neg hid] at herr ⊢
        exact h6 a ha herr
  | removeEntry i =>
    refine ⟨?_, h2, ?_, ?_, ?_, ?_⟩
    · show ((removeFile i s.queue).map FileEntry.id).Nodup
      exact h1.sublist (List.Sublist.map FileEntry.id (List.filter_sublist s.queue))
    · intro e he hup
      exact h3 e (List.mem_of_mem_filter he) hup
    · intro e he hmem
      exact h4 e (List.mem_of_mem_filter he) hmem
    · intro e he
      exact h5 e (List.mem_of_mem_filter he)
    · intro e he herr
      exact h6 e (List.mem_of_mem_filter he) herr

theorem sysInv_initSys : SysInv initSys := by decide

theorem reachable_sysInv {s : Sys} (h : Reachable s) : SysInv s := by
  induction h with
  | refl => exact sysInv_initSys
  | tail _ hstep ih => exact sysInv_step ih hstep

theorem intakeList_map_file (fl : List RawFile) (ids : Nat → String) (k : Nat) :
    (intakeList fl ids k).map FileEntry.file = fl.filter validateFile := by
  induction fl generalizing k with
  | nil => rfl
  | cons f rest ih =>
    rw [intakeList]
    by_cases hv : validateFile f
    · rw [if_pos hv, List.map_cons, ih (k + 1), List.filter_cons_of_pos hv]
      rfl
    · rw [if_neg hv, ih k,
        List.filter_cons_of_neg (by simpa using hv)]

theorem validateFile_eq_spec (f : RawFile) :
    validateFile f =
      (decide (f.ftype ∈ allowedTypes) ||
       decide ('.' :: (afterLastDot f.name.toList).map toLowerChar ∈ allowedExtensions)) := by
  unfold validateFile jsExtension
  rw [jsLastSeg_eq_afterLastDot]

theorem update_absent (g : FileEntry → FileEntry) (i : String)
    (q : List FileEntry) (h : ∀ e ∈ q, e.id ≠ i) :
    (q.map fun f => if f.id = i then g f else f) = q := by
  induction q with
  | nil => rfl
  | cons a q ih =>
    rw [List.map_cons, if_neg (h a (List.mem_cons_self a q)),
      ih fun e he => h e (List.mem_cons_of_mem a he)]

theorem removeFile_id_ne (i : String) (q : List FileEntry) :
    ∀ e ∈ removeFile i q, e.id ≠ i := by
  intro e he
  have := (List.mem_filter.mp he).2
  exact bne_iff_ne.mp this

theorem base36_upper (c : Char) (h : c ∈ base36Digits) :
    isUpperAlnum (toUpperChar c) := by
  fin_cases h <;> decide

theorem percent_round_eq (sN tN : Nat) (ht : 0 < tN) :
    round ((sN : ℚ) / (tN : ℚ) * 100) = (((200 * sN + tN) / (2 * tN) : ℕ) : ℤ) := by
  rw [round_eq]
  have htQ : (tN : ℚ) ≠ 0 := Nat.cast_ne_zero.mpr ht.ne'
  have hx : (sN : ℚ) / (tN : ℚ) * 100 + 1/2 =
      ((200 * sN + tN : ℕ) : ℚ) / ((2 * tN : ℕ) : ℚ) := by
    push_cast
    field_simp
    ring
  rw [hx]
  have hnn : 0 ≤ ((200 * sN + tN : ℕ) : ℚ) / ((2 * tN : ℕ) : ℚ) := by positivity
  rw [← Int.natCast_floor_eq_floor hnn]
  rw [Nat.floor_div_nat ((200 * sN + tN : ℕ) : ℚ) (2 * tN)]
  rw [Nat.floor_natCast]

theorem nodup_id_eq {q : List FileEntry} (h : (q.map FileEntry.id).Nodup)
    {e e' : FileEntry} (he : e ∈ q) (he' : e' ∈ q) (hid : e.id = e'.id) : e = e' := by
  induction q with
  | nil => cases he
  | cons a q ih =>
    rw [List.map_cons, List.nodup_cons] at h
    rcases List.mem_cons.mp he with rfl | hq
    · rcases List.mem_cons.mp he' with rfl | hq2
      · rfl
      · exact absurd (hid ▸ List.mem_map_of_mem FileEntry.id hq2) h.1
    · rcases List.mem_cons.mp he' with rfl | hq2
      · exact absurd (hid ▸ List.mem_map_of_mem FileEntry.id hq) h.1
      · exact ih h.2 hq hq2

/-- A sample acceptable file (extension and media type both allowed). -/
def csvSample : RawFile := { name := "report.csv", ftype := "text/csv", size := 5 }

/-- A second acceptable file. -/
def csvSample2 : RawFile := { name := "b.csv", ftype := "text/csv", size := 2 }

/-- A sample rejected file (neither media type nor extension allowed). -/
def exeSample : RawFile := { name := "virus.exe", ftype := "application/x-msdownload", size := 7 }

/-- State after admitting `csvSample` with PRNG id "a". -/
def traceS1 : Sys := { queue := [mkPending csvSample "a"], inflight := [] }

/-- State after the admission upload has started. -/
def traceS2 : Sys :=
  { queue := [{ file := csvSample, id := "a", status := Status.uploading,
                progress := 0, error := none }],
    inflight := ["a"] }

/-- State after the first upload failed with message "boom". -/
def traceS3 : Sys :=
  { queue := [{ file := csvSample, id := "a", status := Status.error,
                progress := 0, error := some "boom" }],
    inflight := [] }

/-- State after Retry was clicked on the errored entry. -/
def traceS4 : Sys :=
  { queue := [{ file := csvSample, id := "a", status := Status.uploading,
                progress := 0, error := some "boom" }],
    inflight := ["a"] }

/-- State after the retried upload succeeded. -/
def traceS5 : Sys :=
  { queue := [{ file := csvSample, id := "a", status := Status.success,
                progress := 100, error := some "boom" }],
    inflight := [] }

theorem step_trace1 : Step initSys traceS1 := by
  have h := Step.intake initSys [csvSample] (fun _ => "a") (by decide) (by decide)
  have hEq : Sys.mk (handleFiles [csvSample] (fun _ => "a") initSys.queue)
      initSys.inflight = traceS1 := by decide
  exact hEq ▸ h

theorem step_trace2 : Step traceS1 traceS2 := by
  have h := Step.beginUpload traceS1 (mkPending csvSample "a") (by decide) (by decide)
  have hEq : Sys.mk (setUploading (mkPending csvSample "a").id traceS1.queue)
      ((mkPending csvSample "a").id :: traceS1.inflight) = traceS2 := by decide
  exact hEq ▸ h

theorem step_trace3 : Step traceS2 traceS3 := by
  have h := Step.uploadError traceS2 "a" "boom" (by decide)
  have hEq : Sys.mk (setError "a" "boom" traceS2.queue)
      (traceS2.inflight.erase "a") = traceS3 := by decide
  exact hEq ▸ h

theorem step_trace4 : Step traceS3 traceS4 := by
  have h := Step.beginUpload traceS3
    { file := csvSample, id := "a", status := Status.error, progress := 0,
      error := some "boom" } (by decide) (by decide)
  have hEq : Sys.mk (setUploading "a" traceS3.queue)
      ("a" :: traceS3.inflight) = traceS4 := by decide
  exact hEq ▸ h

theorem step_trace5 : Step traceS4 traceS5 := by
  have h := Step.uploadSuccess traceS4 "a" (by decide)
  have hEq : Sys.mk (setSuccess "a" traceS4.queue)
      (traceS4.inflight.erase "a") = traceS5 := by decide
  exact hEq ▸ h

theorem reachable_trace1 : Reachable traceS1 :=
  Relation.ReflTransGen.single step_trace1

theorem reachable_trace3 : Reachable traceS3 :=
  Relation.ReflTransGen.tail (Relation.ReflTransGen.tail reachable_trace1 step_trace2)
    step_trace3

theorem reachable_trace4 : Reachable traceS4 :=
  Relation.ReflTransGen.tail reachable_trace3 step_trace4

theorem reachable_trace5 : Reachable traceS5 :=
  Relation.ReflTransGen.tail reachable_trace4 step_trace5

/-- C3: `handleFiles` creates one new `pending` entry (appended in input
order) for exactly the raw files whose declared media type is in the
allow-set or whose case-insensitive extension (suffix after the last
`'.'`, dot-prefixed) is in {.txt, .pdf, .csv}; all other handles produce
no entry. -/
theorem admission_pending_iff_allowed :
    ∀ (fl : List RawFile) (ids : Nat → String) (q : List FileEntry),
      handleFiles fl ids q = q ++ intakeList fl ids 0 ∧
      (intakeList fl ids 0).map FileEntry.file = fl.filter validateFile ∧
      (∀ e ∈ intakeList fl ids 0,
        e.status = Status.pending ∧ e.progress = 0 ∧ e.error = none) ∧
      (∀ f : RawFile, validateFile f =
        (decide (f.ftype ∈ allowedTypes) ||
         decide ('.' :: (afterLastDot f.name.toList).map toLowerChar ∈ allowedExtensions))) := by
  intro fl ids q
  exact ⟨rfl, intakeList_map_file fl ids 0, intakeList_fields fl ids 0,
    validateFile_eq_spec⟩

/-- Witness for C3 at a concrete batch: a `.csv` file is admitted as a
`pending` entry and an `.exe` file is dropped. -/
theorem admission_pending_iff_allowed_witness :
    (mkPending csvSample "a") ∈ intakeList [csvSample, exeSample] (fun _ => "a") 0 ∧
    (intakeList [csvSample, exeSample] (fun _ => "a") 0).map FileEntry.file =
      [csvSample, exeSample].filter validateFile ∧
    (mkPending csvSample "a").status = Status.pending :=
  ⟨by decide,
   (admission_pending_iff_allowed [csvSample, exeSample] (fun _ => "a") []).2.1,
   ((admission_pending_iff_allowed [csvSample, exeSample] (fun _ => "a") []).2.2.1
     (mkPending csvSample "a") (by decide)).1⟩

/-- C10: for a filename with no `'.'`, `validateFile` computes the
extension as `'.'` plus the whole lowercased name, so such a file is
accepted exactly when its whole name is (case-insensitively) `txt`,
`pdf` or `csv`, or its media type is allowed; the empty filename is
handled and accepted exactly when its media type is allowed. -/
theorem validate_no_dot_whole_name :
    (∀ (nm t : String) (sz : Nat), '.' ∉ nm.toList →
      jsExtension nm = '.' :: nm.toList.map toLowerChar ∧
      validateFile { name := nm, ftype := t, size := sz } =
        (decide (t ∈ allowedTypes) ||
         decide (nm.toList.map toLowerChar ∈ ["txt".toList, "pdf".toList, "csv".toList]))) ∧
    (∀ (t : String) (sz : Nat),
      validateFile { name := "", ftype := t, size := sz } = decide (t ∈ allowedTypes)) := by
  constructor
  · intro nm t sz hnd
    have hext : jsExtension nm = '.' :: nm.toList.map toLowerChar := by
      unfold jsExtension
      rw [jsLastSeg_eq_afterLastDot, afterLastDot_of_not_mem _ hnd]
    refine ⟨hext, ?_⟩
    unfold validateFile
    rw [hext]
    congr 1
    rw [decide_eq_decide]
    have h1 : ".txt".toList = '.' :: "txt".toList := rfl
    have h2 : ".pdf".toList = '.' :: "pdf".toList := rfl
    have h3 : ".csv".toList = '.' :: "csv".toList := rfl
    simp only [allowedExtensions, h1, h2, h3, List.mem_cons, List.not_mem_nil,
      or_false, List.cons.injEq, true_and]
  · intro t sz
    unfold validateFile
    have hfalse : decide (jsExtension "" ∈ allowedExtensions) = false := by decide
    rw [hfalse, Bool.or_false]

/-- Witness for C10 at the dotless name "TXT": accepted because the
whole name lowercases to `txt`. -/
theorem validate_no_dot_whole_name_witness :
    ('.' ∉ "TXT".toList) ∧
    validateFile { name := "TXT", ftype := "", size := 0 } =
      (decide (("" : String) ∈ allowedTypes) ||
       decide ("TXT".toList.map toLowerChar ∈ ["txt".toList, "pdf".toList, "csv".toList])) ∧
    validateFile { name := "TXT", ftype := "", size := 0 } = true :=
  ⟨by decide,
   (validate_no_dot_whole_name.1 "TXT" "" 0 (by decide)).2,
   by decide⟩

/-- C7: `summary().succeeded` is the number of `success` entries,
`summary().total` is the queue length; when the queue is non-empty the
rendered percentage is `round(succeeded / total * 100)` which equals the
closed-form `(200 * succeeded + total) / (2 * total)` in integer
arithmetic, and when the queue is empty the percentage is not computed. -/
theorem summary_counts_and_percent :
    ∀ q : List FileEntry,
      summarySucceeded q = q.countP (fun f => decide (f.status = Status.success)) ∧
      summaryTotal q = q.length ∧
      (q.length ≠ 0 → summaryPercent q =
        some (((200 * summarySucceeded q + summaryTotal q) /
          (2 * summaryTotal q) : ℕ) : ℤ)) ∧
      (q.length = 0 → summaryPercent q = none) := by
  intro q
  refine ⟨(List.countP_eq_length_filter _ q).symm, rfl, ?_, ?_⟩
  · intro hne
    unfold summaryPercent
    rw [if_neg hne]
    rw [percent_round_eq (summarySucceeded q) (summaryTotal q)
      (Nat.pos_of_ne_zero hne)]
  · intro hz
    unfold summaryPercent
    rw [if_pos hz]

/-- Witness for C7 on a queue of 3 entries with 2 successes: the spec's
worked example, `percentComplete = 67`. -/
theorem summary_counts_and_percent_witness :
    ([mkPending csvSample "a",
      { file := csvSample, id := "b", status := Status.success, progress := 100,
        error := none },
      { file := csvSample2, id := "c", status := Status.success, progress := 100,
        error := none }] : List FileEntry).length ≠ 0 ∧
    summaryPercent
      [mkPending csvSample "a",
       { file := csvSample, id := "b", status := Status.success, progress := 100,
         error := none },
       { file := csvSample2, id := "c", status := Status.success, progress := 100,
         error := none }] = some 67 := by
  refine ⟨by decide, ?_⟩
  rw [(summary_counts_and_percent
    [mkPending csvSample "a",
     { file := csvSample, id := "b", status := Status.success, progress := 100,
       error := none },
     { file := csvSample2, id := "c", status := Status.success, progress := 100,
       error := none }]).2.2.1 (by decide)]
  decide

/-- C6: a response with status outside 200-299 makes the driver perform
exactly one terminal mutation, to `error`, with a message embedding the
numeric status code and the status text (no second `setUploading`, hence
no automatic retry); a transport-level rejection yields `error` with the
thrown `Error`'s message, or the fallback "Upload failed" for a non-
`Error` thrown value; and applying the error mutation marks the entry
`error` with that message. -/
theorem upload_error_paths :
    ∀ (st : Nat) (stext body msg i : String) (q : List FileEntry),
      (¬ (200 ≤ st ∧ st ≤ 299) →
        driverEvents (FetchOutcome.response st stext body) =
          [DriverEvent.setUploading,
           DriverEvent.setError ("Upload failed: " ++ Nat.repr st ++ " " ++ stext)]) ∧
      driverEvents (FetchOutcome.failure (JsThrown.errObj msg)) =
        [DriverEvent.setUploading, DriverEvent.setError msg] ∧
      driverEvents (FetchOutcome.failure JsThrown.nonError) =
        [DriverEvent.setUploading, DriverEvent.setError "Upload failed"] ∧
      (∀ r : FetchOutcome, (driverEvents r).length = 2 ∧
        (driverEvents r).head? = some DriverEvent.setUploading) ∧
      (∀ e' ∈ setError i msg q, e'.id = i →
        e'.status = Status.error ∧ e'.error = some msg) := by
  intro st stext body msg i q
  refine ⟨?_, rfl, rfl, ?_, ?_⟩
  · intro h
    have hok : httpOk st = false := by
      unfold httpOk
      rcases Nat.lt_or_ge st 200 with hlt | hge
      · simp [Nat.not_le.mpr hlt]
      · have hgt : ¬ st ≤ 299 := fun hle => h ⟨hge, hle⟩
        simp [hgt]
    simp [driverEvents, uploadFailedMsg, hok]
  · intro r
    cases r with
    | response st2 stext2 body2 =>
      unfold driverEvents
      by_cases hok : httpOk st2 <;> simp [hok]
    | failure e => cases e <;> exact ⟨rfl, rfl⟩
  · intro e' he' hid
    obtain ⟨a, ha, rfl⟩ := mem_update_shape he'
    by_cases hida : a.id = i
    · rw [if_pos hida]
      exact ⟨rfl, rfl⟩
    · rw [if_neg hida] at hid
      exact absurd hid hida

/-- Witness for C6 at a concrete 500 response and a concrete entry. -/
theorem upload_error_paths_witness :
    (¬ (200 ≤ 500 ∧ 500 ≤ 299)) ∧
    driverEvents (FetchOutcome.response 500 "Internal Server Error" "") =
      [DriverEvent.setUploading,
       DriverEvent.setError ("Upload failed: " ++ Nat.repr 500 ++ " " ++ "Internal Server Error")] :=
  ⟨by decide,
   (upload_error_paths 500 "Internal Server Error" "" "m" "a" []).1 (by decide)⟩

/-- C8: removing an absent id and applying a (late) status update for an
absent id both leave the queue unchanged; after `removeFile i q` no
update for `i` can resurrect the entry (the id is gone and the updates
are no-ops), and a second `removeFile` of the same id is a no-op. -/
theorem remove_and_late_update_noop :
    ∀ (i msg : String) (q : List FileEntry),
      (i ∉ q.map FileEntry.id →
        removeFile i q = q ∧ setUploading i q = q ∧ setSuccess i q = q ∧
          setError i msg q = q) ∧
      removeFile i (removeFile i q) = removeFile i q ∧
      setUploading i (removeFile i q) = removeFile i q ∧
      setSuccess i (removeFile i q) = removeFile i q ∧
      setError i msg (removeFile i q) = removeFile i q ∧
      i ∉ (setSuccess i (removeFile i q)).map FileEntry.id := by
  intro i msg q
  have habs : ∀ (q' : List FileEntry), (∀ e ∈ q', e.id ≠ i) →
      removeFile i q' = q' ∧ setUploading i q' = q' ∧ setSuccess i q' = q' ∧
        setError i msg q' = q' := by
    intro q' hne
    refine ⟨?_, ?_, ?_, ?_⟩
    · exact List.filter_eq_self.mpr fun e he => bne_iff_ne.mpr (hne e he)
    · exact update_absent _ i q' hne
    · exact update_absent _ i q' hne
    · exact update_absent _ i q' hne
  constructor
  · intro hni
    refine habs q fun e he hEq => hni (hEq ▸ List.mem_map_of_mem FileEntry.id he)
  · have h2 := habs (removeFile i q) (removeFile_id_ne i q)
    refine ⟨h2.1, h2.2.1, h2.2.2.1, h2.2.2.2, ?_⟩
    rw [map_id_setSuccess]
    intro hmem
    obtain ⟨e, he, hEq⟩ := List.mem_map.mp hmem
    exact removeFile_id_ne i q e he hEq

/-- Witness for C8 at a concrete queue whose only entry has id "a". -/
theorem remove_and_late_update_noop_witness :
    ("z" ∉ ([mkPending csvSample "a"].map FileEntry.id)) ∧
    removeFile "z" [mkPending csvSample "a"] = [mkPending csvSample "a"] ∧
    setSuccess "z" [mkPending csvSample "a"] = [mkPending csvSample "a"] :=
  ⟨by decide,
   ((remove_and_late_update_noop "z" "m" [mkPending csvSample "a"]).1 (by decide)).1,
   ((remove_and_late_update_noop "z" "m" [mkPending csvSample "a"]).1 (by decide)).2.2.1⟩

/-- Counterexample to C2: the code uppercases the PRNG digits
(`.toUpperCase()`), so for the legitimate base-36 fraction "abcdefghi"
the payload's `userId` is "USRABCDEFGHI", whose 4th character 'A' is
not lowercase alphanumeric; and for the fraction "i" (e.g.
`Math.random() = 0.5`) the suffix has only 1 character, not exactly 9. -/
theorem userId_uppercase_cex :
    (∀ c ∈ "abcdefghi".toList, c ∈ base36Digits) ∧
    mkUserId "abcdefghi".toList = "USRABCDEFGHI".toList ∧
    'A' ∈ (mkUserId "abcdefghi".toList).drop 3 ∧
    ¬ isLowerAlnum 'A' ∧
    (∀ c ∈ "i".toList, c ∈ base36Digits) ∧
    mkUserId "i".toList = "USRI".toList ∧
    ((mkUserId "i".toList).drop 3).length ≠ 9 := by decide

/-- C2 as amended: the payload's `userId` is the fixed literal "USR"
followed by the first `min 9 |rnd|` base-36 fraction digits of the
per-call PRNG output, uppercased — uppercase alphanumeric characters,
exactly 9 of them when the fraction has at least 9 digits; the field is
a function of the per-call randomness only (the entry carries no such
field, and `buildFormData` derives `userId` from `rnd` alone). -/
theorem userId_format_amended :
    ∀ (rnd : List Char), (∀ c ∈ rnd, c ∈ base36Digits) →
      (∀ e : FileEntry, (buildFormData e rnd).userId = mkUserId rnd) ∧
      mkUserId rnd = "USR".toList ++ (rnd.take 9).map toUpperChar ∧
      (∀ c ∈ (mkUserId rnd).drop 3, isUpperAlnum c) ∧
      (mkUserId rnd).length = 3 + min 9 rnd.length ∧
      (9 ≤ rnd.length → ((mkUserId rnd).drop 3).length = 9) := by
  intro rnd hrnd
  have hdrop : (mkUserId rnd).drop 3 = (rnd.take 9).map toUpperChar := rfl
  refine ⟨fun _ => rfl, rfl, ?_, ?_, ?_⟩
  · intro c hc
    rw [hdrop] at hc
    obtain ⟨c', hc', rfl⟩ := List.mem_map.mp hc
    exact base36_upper c' (hrnd c' (List.mem_of_mem_take hc'))
  · simp only [mkUserId, List.length_append, List.length_map, List.length_take]
    rw [show ("USR".toList).length = 3 from rfl]
  · intro h9
    rw [hdrop]
    simp [List.length_take, min_eq_left h9]

/-- Witness for C2's amended statement at the fraction "0a1b2c3d4e". -/
theorem userId_format_amended_witness :
    (∀ c ∈ "0a1b2c3d4e".toList, c ∈ base36Digits) ∧
    mkUserId "0a1b2c3d4e".toList =
      "USR".toList ++ ("0a1b2c3d4e".toList.take 9).map toUpperChar ∧
    ((mkUserId "0a1b2c3d4e".toList).drop 3).length = 9 :=
  ⟨by decide,
   (userId_format_amended "0a1b2c3d4e".toList (by decide)).2.1,
   (userId_format_amended "0a1b2c3d4e".toList (by decide)).2.2.2.2 (by decide)⟩

/-- Counterexample to C1: a reachable execution (admit a `.csv` file,
upload fails with "boom", Retry, upload succeeds) ends with the entry in
status `success` while its error message is still `some "boom"` — the
spread updates of `uploadFile` never clear the `error` field, so
`errorMessage` is present without `status = error` and a successful
retry does not clear it. -/
theorem retry_keeps_stale_error_cex :
    Reachable traceS5 ∧
    traceS5.queue =
      [{ file := csvSample, id := "a", status := Status.success, progress := 100,
         error := some "boom" }] ∧
    (traceS5.queue.head?.map FileEntry.error) = some (some "boom") ∧
    (traceS5.queue.head?.map FileEntry.status) = some Status.success :=
  ⟨reachable_trace5, rfl, rfl, rfl⟩

/-- C1 as amended: in every reachable state, an entry in status `error`
carries an error message (the converse direction of the claimed "iff"
holds), but transitions into `uploading` and `success` preserve the
`error` field rather than clearing it, so after a retry that ends in
`success` the prior message remains present; retry on an `error` entry
does reach `success` (with `progress = 100`) under a successful upload
outcome. -/
theorem error_message_persistence_amended :
    (∀ s, Reachable s → ∀ e ∈ s.queue, e.status = Status.error → e.error ≠ none) ∧
    (∀ (i : String) (q : List FileEntry),
      (setSuccess i (setUploading i q)).map FileEntry.error = q.map FileEntry.error) ∧
    (∀ (i : String) (q : List FileEntry), ∀ e' ∈ setSuccess i (setUploading i q),
      e'.id = i → e'.status = Status.success ∧ e'.progress = 100) := by
  refine ⟨?_, ?_, ?_⟩
  · intro s hreach
    exact (reachable_sysInv hreach).2.2.2.2.2
  · intro i q
    induction q with
    | nil => rfl
    | cons a q ih =>
      simp only [setUploading, setSuccess, List.map_cons] at ih ⊢
      rw [ih]
      by_cases hid : a.id = i
      · rw [if_pos hid, if_pos hid]
      · rw [if_neg hid, if_neg hid]
  · intro i q e' he' hid
    obtain ⟨a, ha, rfl⟩ := mem_update_shape he'
    by_cases hida : a.id = i
    · rw [if_pos hida]
      exact ⟨rfl, rfl⟩
    · rw [if_neg hida] at hid
      exact absurd hid hida

/-- Witness for C1's amended statement: the reachable errored state
`traceS3` satisfies the invariant, and running the retry updates on its
queue preserves the message and reaches `success`. -/
theorem error_message_persistence_amended_witness :
    (∀ e ∈ traceS3.queue, e.status = Status.error → e.error ≠ none) ∧
    (setSuccess "a" (setUploading "a" traceS3.queue)).map FileEntry.error =
      traceS3.queue.map FileEntry.error :=
  ⟨error_message_persistence_amended.1 traceS3 reachable_trace3,
   error_message_persistence_amended.2.1 "a" traceS3.queue⟩

/-- C4: along any step taken from a reachable state, no entry leaves
`success`; an entry that is `success` or `error` after the step was
already in that status or was `uploading` before it (so neither
terminal status is entered directly from `pending`); and an entry that
is `uploading` after the step was `uploading`, `pending` or `error`
before it — never `success`. -/
theorem status_transitions_respect_machine :
    ∀ s s', Reachable s → Step s s' →
      ∀ e' ∈ Sys.queue s', ∀ e ∈ Sys.queue s, e.id = e'.id →
        (e.status = Status.success → e'.status = Status.success) ∧
        ((e'.status = Status.success ∨ e'.status = Status.error) →
          e'.status = e.status ∨ e.status = Status.uploading) ∧
        (e'.status = Status.uploading →
          e.status = Status.uploading ∨ e.status = Status.pending ∨
            e.status = Status.error) := by
  intro s s' hreach hst e' he' e he hid
  obtain ⟨h1, h2, h3, h4, h5, h6⟩ := reachable_sysInv hreach
  cases hst with
  | intake fl ids hnodup hfresh =>
    rcases List.mem_append.mp he' with hq | hn
    · have : e = e' := nodup_id_eq h1 he hq hid
      subst this
      exact ⟨fun h => h, fun _ => Or.inl rfl, fun h => Or.inl h⟩
    · exact absurd (hid.symm ▸ List.mem_map_of_mem FileEntry.id he)
        ((hfresh e'.id (List.mem_map_of_mem FileEntry.id hn)).1)
  | beginUpload eb heb hestb =>
    obtain ⟨a, ha, rfl⟩ := mem_update_shape he'
    by_cases hida : a.id = eb.id
    · rw [if_pos hida] at hid ⊢
      have hae : e = a := nodup_id_eq h1 he ha hid
      subst hae
      have haeb : e = eb := nodup_id_eq h1 ha heb hida
      subst haeb
      refine ⟨?_, ?_, ?_⟩
      · intro hsu
        rcases hestb with h | h <;> rw [hsu] at h <;> exact Status.noConfusion h
      · intro hterm
        rcases hterm with h | h <;> exact Status.noConfusion h
      · intro _
        rcases hestb with h | h
        · exact Or.inr (Or.inl h)
        · exact Or.inr (Or.inr h)
    · rw [if_neg hida] at hid ⊢
      have hae : e = a := nodup_id_eq h1 he ha hid
      subst hae
      exact ⟨fun h => h, fun _ => Or.inl rfl, fun h => Or.inl h⟩
  | uploadSuccess i h =>
    obtain ⟨a, ha, rfl⟩ := mem_update_shape he'
    by_cases hida : a.id = i
    · rw [if_pos hida] at hid ⊢
      have hae : e = a := nodup_id_eq h1 he ha hid
      subst hae
      have hup : e.status = Status.uploading := h4 e ha (hida ▸ h)
      refine ⟨fun _ => rfl, fun _ => Or.inr hup, ?_⟩
      · intro habs
        exact Status.noConfusion habs
    · rw [if_neg hida] at hid ⊢
      have hae : e = a := nodup_id_eq h1 he ha hid
      subst hae
      exact ⟨fun h => h, fun _ => Or.inl rfl, fun h => Or.inl h⟩
  | uploadError i msg h =>
    obtain ⟨a, ha, rfl⟩ := mem_update_shape he'
    by_cases hida : a.id = i
    · rw [if_pos hida] at hid ⊢
      have hae : e = a := nodup_id_eq h1 he ha hid
      subst hae
      have hup : e.status = Status.uploading := h4 e ha (hida ▸ h)
      refine ⟨?_, fun _ => Or.inr hup, ?_⟩
      · intro hsu
        rw [hsu] at hup
        exact Status.noConfusion hup
      · intro habs
        exact Status.noConfusion habs
    · rw [if_neg hida] at hid ⊢
      have hae : e = a := nodup_id_eq h1 he ha hid
      subst hae
      exact ⟨fun h => h, fun _ => Or.inl rfl, fun h => Or.inl h⟩
  | removeEntry i =>
    have hq := List.mem_of_mem_filter he'
    have : e = e' := nodup_id_eq h1 he hq hid
    subst this
    exact ⟨fun h => h, fun _ => Or.inl rfl, fun h => Or.inl h⟩

/-- Witness for C4 at the concrete retry step `traceS3 → traceS4`
(an `error` entry re-entering `uploading`). -/
theorem status_transitions_respect_machine_witness :
    ((⟨csvSample, "a", Status.error, 0, some "boom"⟩ : FileEntry).status =
        Status.success →
      (⟨csvSample, "a", Status.uploading, 0, some "boom"⟩ : FileEntry).status =
        Status.success) ∧
    (((⟨csvSample, "a", Status.uploading, 0, some "boom"⟩ : FileEntry).status =
          Status.success ∨
      (⟨csvSample, "a", Status.uploading, 0, some "boom"⟩ : FileEntry).status =
          Status.error) →
      (⟨csvSample, "a", Status.uploading, 0, some "boom"⟩ : FileEntry).status =
        (⟨csvSample, "a", Status.error, 0, some "boom"⟩ : FileEntry).status ∨
      (⟨csvSample, "a", Status.error, 0, some "boom"⟩ : FileEntry).status =
        Status.uploading) ∧
    ((⟨csvSample, "a", Status.uploading, 0, some "boom"⟩ : FileEntry).status =
        Status.uploading →
      (⟨csvSample, "a", Status.error, 0, some "boom"⟩ : FileEntry).status =
        Status.uploading ∨
      (⟨csvSample, "a", Status.error, 0, some "boom"⟩ : FileEntry).status =
        Status.pending ∨
      (⟨csvSample, "a", Status.error, 0, some "boom"⟩ : FileEntry).status =
        Status.error) :=
  status_transitions_respect_machine traceS3 traceS4 reachable_trace3 step_trace4
    ⟨csvSample, "a", Status.uploading, 0, some "boom"⟩ (by decide)
    ⟨csvSample, "a", Status.error, 0, some "boom"⟩ (by decide) rfl

/-- C5: in every reachable state an entry's `progress` is `100` exactly
when its status is `success`, and after any step every entry that is
`uploading` or `error` has `progress = 0` (transitions into those states
reset it). -/
theorem progress_iff_success :
    ∀ s, Reachable s →
      (∀ e ∈ Sys.queue s, (e.progress = 100 ↔ e.status = Status.success)) ∧
      (∀ s', Step s s' → ∀ e' ∈ Sys.queue s',
        (e'.status = Status.uploading ∨ e'.status = Status.error) →
          e'.progress = 0) := by
  intro s hreach
  constructor
  · intro e he
    have h5 := (reachable_sysInv hreach).2.2.2.2.1
    rw [h5 e he]
    by_cases hsu : e.status = Status.success
    · simp [hsu]
    · simp [hsu]
  · intro s' hstep e' he' hterm
    have h5' := (reachable_sysInv (Relation.ReflTransGen.tail hreach hstep)).2.2.2.2.1
    rw [h5' e' he']
    rcases hterm with h | h <;> rw [h] <;> rfl

/-- Witness for C5 at the reachable state `traceS4`. -/
theorem progress_iff_success_witness :
    ((⟨csvSample, "a", Status.uploading, 0, some "boom"⟩ : FileEntry).progress = 100 ↔
      (⟨csvSample, "a", Status.uploading, 0, some "boom"⟩ : FileEntry).status =
        Status.success) ∧
    ((⟨csvSample, "a", Status.success, 100, some "boom"⟩ : FileEntry).progress = 100 ↔
      (⟨csvSample, "a", Status.success, 100, some "boom"⟩ : FileEntry).status =
        Status.success) :=
  ⟨(progress_iff_success traceS4 reachable_trace4).1
     ⟨csvSample, "a", Status.uploading, 0, some "boom"⟩ (by decide),
   (progress_iff_success traceS5 reachable_trace5).1
     ⟨csvSample, "a", Status.success, 100, some "boom"⟩ (by decide)⟩

/-- Counterexample to C9: ids are drawn from `Math.random()` with no
uniqueness check, so there is a PRNG outcome (the stream that returns
"dup" both times) under which admitting two valid files yields two
entries with the same id. -/
theorem duplicate_ids_cex :
    ¬ ((handleFiles [csvSample, csvSample2] (fun _ => "dup") []).map FileEntry.id).Nodup ∧
    (handleFiles [csvSample, csvSample2] (fun _ => "dup") []).length = 2 := by
  decide

/-- C9 as amended: queue ids are unique in every reachable state
provided each admission draws ids that are pairwise distinct and fresh
(distinct from all queue and in-flight ids), as recorded in the
`Step.intake` guard; the code itself does not enforce this, so
uniqueness holds only for such PRNG outcomes. -/
theorem unique_ids_amended :
    ∀ s, Reachable s → ((Sys.queue s).map FileEntry.id).Nodup :=
  fun _ hreach => (reachable_sysInv hreach).1

/-- Witness for C9's amended statement at the reachable state `traceS1`. -/
theorem unique_ids_amended_witness :
    ((Sys.queue traceS1).map FileEntry.id).Nodup :=
  unique_ids_amended traceS1 reachable_trace1
